import Mathlib

/-!
Formal model of the clarity telephony speech-practice agent.

This file gives a shallow embedding, in Lean, of the core data structures and
operations of the repository: the WAV/PCM codec helpers, the per-call session
state, the feedback-timer latch, the Azure pronunciation-assessment adapter
(its bounded audio buffers and its FIFO assessment queue), the media-stream
stop handler, and the energy-based voice-activity detector.  JavaScript
numbers holding audio energies and millisecond durations are modelled as
rationals; byte buffers are lists of naturals; timers are modelled by an
explicit remaining-time field together with an `elapse` step, matching the
single-threaded event-loop semantics of the source.  External SDK round
trips (the one-shot assessment recognition) are abstracted by an oracle
telling whether a given call resolves or rejects.
-/

namespace Clarity

/-- JavaScript `String.prototype.trim`: strip whitespace from both ends. -/
def jsTrim (s : String) : String :=
  String.mk (((s.data.dropWhile Char.isWhitespace).reverse.dropWhile Char.isWhitespace).reverse)

/-! ## Audio codec layer (src audioConversion: extractPcmFromWav) -/

/-- A raw byte buffer (each entry one byte). -/
abbrev ByteBuf := List Nat

/-- The ASCII bytes of the string `data`, the WAV data sub-chunk marker. -/
def dataMarkerBytes : List Nat := [100, 97, 116, 97]

/-- Whether the four bytes of `w` starting at `i` read `data` under
Node `ascii` decoding (each byte is masked to 7 bits). -/
def hasDataMarkerAt (w : ByteBuf) (i : Nat) : Prop :=
  ((w.drop i).take 4).map (fun b => b % 128) = dataMarkerBytes

instance (w : ByteBuf) (i : Nat) : Decidable (hasDataMarkerAt w i) := by
  unfold hasDataMarkerAt; infer_instance

/-- The scan loop of `extractPcmFromWav`: `for (i = 0; i < len - 4; i++)`,
returning the first index whose four bytes decode to `data`. -/
def wavDataScan (w : ByteBuf) : Option Nat :=
  (List.range (w.length - 4)).find? (fun i => decide (hasDataMarkerAt w i))

/-- `extractPcmFromWav`: locate the data sub-chunk marker and return
everything after the 8-byte sub-header; throw if the scan finds nothing. -/
def extractPcmFromWav (w : ByteBuf) : Except String ByteBuf :=
  match wavDataScan w with
  | some i => .ok (w.drop (i + 8))
  | none => .error "Could not find data chunk in WAV file"

/-! ## Call session (callSession: CallSessionData, accessors, cleanup) -/

/-- A conversation role, `user` or `assistant`. -/
inductive Role
  | user
  | assistant
deriving DecidableEq

/-- Word-level info attached to a Deepgram transcript.  The source fields
are named `start` and `end`; `end` is reserved in Lean, hence the renames. -/
structure WordInfo where
  word : String
  confidence : ℚ
  startTime : ℚ
  endTime : ℚ
deriving DecidableEq

/-- One entry of `CallSessionData.transcripts`. -/
structure TranscriptEntry where
  text : String
  isFinal : Bool
  timestamp : Nat
  words : Option (List WordInfo)
deriving DecidableEq

/-- One entry of `CallSessionData.fillerWords`. -/
structure FillerWordEntry where
  word : String
  timestamp : Nat
deriving DecidableEq

/-- Per-phoneme assessment detail. -/
structure PhonemeResult where
  phoneme : String
  accuracyScore : ℚ
deriving DecidableEq

/-- Per-word assessment detail. -/
structure WordResult where
  word : String
  accuracyScore : ℚ
  errorType : String
  phonemes : Option (List PhonemeResult)
deriving DecidableEq

/-- The multi-dimensional pronunciation assessment scores. -/
structure PronunciationAssessmentResult where
  accuracyScore : ℚ
  pronunciationScore : ℚ
  completenessScore : ℚ
  fluencyScore : ℚ
  prosodyScore : ℚ
  words : Option (List WordResult)
deriving DecidableEq

/-- One entry of `CallSessionData.azureResults`. -/
structure AzureResultEntry where
  result : PronunciationAssessmentResult
  text : String
  timestamp : Nat
deriving DecidableEq

/-- One entry of `CallSessionData.conversationHistory`. -/
structure ConversationEntry where
  role : Role
  text : String
  timestamp : Nat
deriving DecidableEq

/-- A PCM audio chunk, as a byte buffer. -/
abbrev AudioChunk := List Nat

/-- The `data` field of a `CallSession`. -/
structure CallSessionData where
  streamSid : String
  callSid : Option String
  startTime : Nat
  audioChunks : List AudioChunk
  transcripts : List TranscriptEntry
  fillerWords : List FillerWordEntry
  azureResults : List AzureResultEntry
  conversationHistory : List ConversationEntry
deriving DecidableEq

/-- A `CallSession`: its data plus the elapsed-time mirror and the timer
handle (modelled as a flag: interval handle present or null). -/
structure CallSession where
  data : CallSessionData
  elapsedTime : Nat
  timerRunning : Bool
deriving DecidableEq

/-- `getFullTranscript`: final transcripts joined by spaces. -/
def getFullTranscript (s : CallSessionData) : String :=
  jsTrim (String.intercalate " " ((s.transcripts.filter (fun t => t.isFinal)).map (fun t => t.text)))

/-- `getAllTranscripts`: all transcripts (interim included) joined by spaces. -/
def getAllTranscripts (s : CallSessionData) : String :=
  jsTrim (String.intercalate " " (s.transcripts.map (fun t => t.text)))

/-- `getCombinedAudio`: concatenation of the buffered audio chunks. -/
def getCombinedAudio (s : CallSessionData) : AudioChunk :=
  s.audioChunks.flatten

/-- `getFillerWordCount`. -/
def getFillerWordCount (s : CallSessionData) : Nat :=
  s.fillerWords.length

/-- `getConversationTurnCount`: number of user messages. -/
def getConversationTurnCount (s : CallSessionData) : Nat :=
  (s.conversationHistory.filter (fun m => m.role == Role.user)).length

/-- `getConversationContext`: split the history at the most recent
user-role entry; `curr` is that entry text, `past` everything before it. -/
def getConversationContext (s : CallSessionData) : List (Role × String) × Option String :=
  let history := s.conversationHistory
  match history.reverse.findIdx? (fun m => m.role == Role.user) with
  | some k =>
    let i := history.length - 1 - k
    ((history.take i).map (fun m => (m.role, m.text)), (history.get? i).map (fun m => m.text))
  | none => (history.map (fun m => (m.role, m.text)), none)

/-- `getGeminiFormatHistory`: rename `assistant` to `model`. -/
def getGeminiFormatHistory (s : CallSessionData) : List (String × String) :=
  s.conversationHistory.map (fun m => (if m.role == Role.assistant then "model" else "user", m.text))

/-- The comparator `(a, b) => b.timestamp - a.timestamp` used by
`getLatestFinalTranscript`: newest first. -/
def newestFirst (a b : TranscriptEntry) : Prop := b.timestamp ≤ a.timestamp

instance : DecidableRel newestFirst := fun a b => by unfold newestFirst; infer_instance

instance : IsTotal TranscriptEntry newestFirst :=
  ⟨fun a b => le_total b.timestamp a.timestamp⟩

instance : IsTrans TranscriptEntry newestFirst :=
  ⟨fun _ _ _ h1 h2 => le_trans h2 h1⟩

/-- The local `finalTranscripts` of `getLatestFinalTranscript`: the final
transcripts stably sorted newest first (JavaScript `Array.prototype.sort`
is stable; a stable sort is modelled by insertion sort, which produces the
same list for this comparator). -/
def finalsNewestFirst (s : CallSessionData) : List TranscriptEntry :=
  List.insertionSort newestFirst (s.transcripts.filter (fun t => t.isFinal))

/-- The local `lastUserMessageTime` of `getLatestFinalTranscript`: the
timestamp of the last user-role history entry, 0 when there is none. -/
def lastUserMessageTime (s : CallSessionData) : Nat :=
  ((((s.conversationHistory.filter (fun m => m.role == Role.user)).getLast?).map
    (fun m => m.timestamp)).getD 0)

/-- The local `recentTranscripts` of `getLatestFinalTranscript`: the final
fragments newer than the last user turn, joined with single spaces. -/
def recentTranscriptsJoined (s : CallSessionData) : String :=
  jsTrim (String.intercalate " "
    (((finalsNewestFirst s).filter (fun t => lastUserMessageTime s < t.timestamp)).map
      (fun t => t.text)))

/-- `getLatestFinalTranscript`: sort the final transcripts newest first,
join the fragments newer than the last user turn, and fall back to the
newest final text if that join is empty; null only with no finals at all. -/
def getLatestFinalTranscript (s : CallSessionData) : Option String :=
  match finalsNewestFirst s with
  | [] => none
  | first :: _ =>
    if recentTranscriptsJoined s = "" then some first.text else some (recentTranscriptsJoined s)

/-- `stopTimer`: clear the interval handle. -/
def stopTimer (s : CallSession) : CallSession :=
  { s with timerRunning := false }

/-- `cleanup`: stop the timer and clear the large audio buffer. -/
def cleanup (s : CallSession) : CallSession :=
  let s1 := stopTimer s
  { s1 with data := { s1.data with audioChunks := [] } }

/-! ## Feedback-pipeline latch (server.ts startTimer onTick callback) -/

/-- The connection-scoped latch `feedbackTriggered` together with a count
of how many times the feedback pipeline has been launched. -/
structure FeedbackLatch where
  feedbackTriggered : Bool
  feedbackFires : Nat
deriving DecidableEq

/-- One timer tick: `if (elapsedSeconds === 30 && !feedbackTriggered)` set
the latch and launch the feedback pipeline. -/
def feedbackOnTick (st : FeedbackLatch) (elapsedSeconds : Nat) : FeedbackLatch :=
  if elapsedSeconds = 30 ∧ st.feedbackTriggered = false then
    { feedbackTriggered := true, feedbackFires := st.feedbackFires + 1 }
  else st

/-- Process a batch of observed elapsed-second tick values in order. -/
def processTimerTicks (st : FeedbackLatch) (ticks : List Nat) : FeedbackLatch :=
  ticks.foldl feedbackOnTick st

/-! ## Pronunciation assessment adapter (azureSpeech: AzureSpeechRecognizer)

The adapter buffers incoming PCM into a rolling whole-call buffer and a
per-utterance buffer, both bounded, and drains a FIFO queue of assessment
items one at a time.  The external one-shot recognition round trip of
`doScriptedPronunciationAssessment` is abstracted by an oracle
`assess : AssessmentItem → Bool` (`true` when the promise resolves with a
result handed to `onResult`, `false` when it rejects). -/

/-- One queued unit of work: `{ referenceText, audio }`. -/
structure AssessmentItem where
  referenceText : String
  audio : List AudioChunk
deriving DecidableEq

/-- The mutable fields of `AzureSpeechRecognizer`. -/
structure AzureSpeechState where
  isClosed : Bool
  audioBuffer : List AudioChunk
  audioBufferBytes : Nat
  isProcessing : Bool
  currentUtterance : List AudioChunk
  currentUtteranceBytes : Nat
  assessmentQueue : List AssessmentItem
deriving DecidableEq

/-- `maxAudioBufferBytes = 320_000` (about 20 seconds at 8kHz 16-bit mono). -/
def maxAudioBufferBytes : Nat := 320000

/-- The recognizer field values set at construction. -/
def initAzureSpeechState : AzureSpeechState :=
  { isClosed := false, audioBuffer := [], audioBufferBytes := 0, isProcessing := false,
    currentUtterance := [], currentUtteranceBytes := 0, assessmentQueue := [] }

/-- Total byte size of a list of chunks. -/
def sumBytes (l : List AudioChunk) : Nat :=
  (l.map List.length).sum

/-- The trimming loop of `writeAudioChunk`:
`while (bytes > maxAudioBufferBytes && chunks.length > 0) shift oldest`. -/
def trimOldest : List AudioChunk → Nat → List AudioChunk × Nat
  | [], bytes => ([], bytes)
  | c :: rest, bytes =>
    if maxAudioBufferBytes < bytes then trimOldest rest (bytes - c.length)
    else (c :: rest, bytes)

/-- `writeAudioChunk`: no-op when closed; otherwise append a copy of the
chunk to the rolling whole-call buffer and to the per-utterance buffer and
trim each from the front while it exceeds `maxAudioBufferBytes`. -/
def writeAudioChunk (st : AzureSpeechState) (chunk : AudioChunk) : AzureSpeechState :=
  if st.isClosed then st
  else
    let au := st.audioBuffer ++ [chunk]
    let aub := st.audioBufferBytes + chunk.length
    let cu := st.currentUtterance ++ [chunk]
    let cub := st.currentUtteranceBytes + chunk.length
    let cuT := trimOldest cu cub
    let auT := trimOldest au aub
    { st with audioBuffer := auT.1, audioBufferBytes := auT.2,
              currentUtterance := cuT.1, currentUtteranceBytes := cuT.2 }

/-- The drain loop of `processAssessmentQueue`: shift items off the queue
and run each assessment in order.  A rejected assessment makes the `await`
throw, so the loop is abandoned: the remaining queue, the successfully
assessed items, and the failed item (if any) are returned.  Note the source
has no try/finally around the loop body. -/
def drainAssessmentQueue (assess : AssessmentItem → Bool) :
    List AssessmentItem → List AssessmentItem × List AssessmentItem × Option AssessmentItem
  | [] => ([], [], none)
  | item :: rest =>
    if assess item then
      let r := drainAssessmentQueue assess rest
      (r.1, item :: r.2.1, r.2.2)
    else (rest, [], some item)

/-- `processAssessmentQueue`: return immediately when a worker is already
running; otherwise set `isProcessing`, drain the queue, and clear
`isProcessing` only when the loop runs to completion — an exception
propagates out before the final assignment, leaving `isProcessing = true`.
Returns the new state, the items assessed successfully (in order), and the
item whose failure was reported to `onError` through the catch in
`enqueueAssessment`, if any. -/
def processAssessmentQueue (assess : AssessmentItem → Bool) (st : AzureSpeechState) :
    AzureSpeechState × List AssessmentItem × Option AssessmentItem :=
  if st.isProcessing then (st, [], none)
  else
    let r := drainAssessmentQueue assess st.assessmentQueue
    match r.2.2 with
    | none => ({ st with isProcessing := false, assessmentQueue := r.1 }, r.2.1, none)
    | some failed => ({ st with isProcessing := true, assessmentQueue := r.1 }, r.2.1, some failed)

/-- `enqueueAssessment`: snapshot the per-utterance buffer into a queue
item, reset the per-utterance buffer, and kick the queue processor. -/
def enqueueAssessment (assess : AssessmentItem → Bool) (st : AzureSpeechState)
    (referenceText : String) :
    AzureSpeechState × List AssessmentItem × Option AssessmentItem :=
  let item : AssessmentItem := { referenceText := referenceText, audio := st.currentUtterance }
  let st1 := { st with assessmentQueue := st.assessmentQueue ++ [item],
                       currentUtterance := [], currentUtteranceBytes := 0 }
  processAssessmentQueue assess st1

/-! ## The VAD speech-start handler (server.ts onSpeechStart callback) -/

/-- The public methods declared on the `AzureSpeechRecognizer` class in the
source (the two-step variant wired by the server). -/
def azureSpeechRecognizerMethods : List String :=
  ["start", "writeAudioChunk", "stop", "close"]

/-- Whether the class declares a `clearAudioBuffer` method. -/
def clearAudioBufferDefined : Bool :=
  azureSpeechRecognizerMethods.contains "clearAudioBuffer"

/-- The body of the server `onSpeechStart` callback, which calls
`recognizer.clearAudioBuffer()`.  If the class declared such a method its
intended effect (per the call-site comment: clear the pending per-utterance
audio so only the current utterance is assessed) would run; since it does
not, the call throws a TypeError. -/
def onSpeechStartClearBuffer (st : AzureSpeechState) : Except String AzureSpeechState :=
  if clearAudioBufferDefined then
    .ok { st with currentUtterance := [], currentUtteranceBytes := 0 }
  else
    .error "TypeError: recognizer.clearAudioBuffer is not a function"

/-- The recognizer state actually observed after the `onSpeechStart`
callback runs: the TypeError unwinds into the media-event try/catch, which
logs and continues, so the recognizer state is left untouched. -/
def onSpeechStartObservedState (st : AzureSpeechState) : AzureSpeechState :=
  match onSpeechStartClearBuffer st with
  | .ok st2 => st2
  | .error _ => st

/-! ## Media-stream stop handling (server.ts stop event and speakToUser) -/

/-- The per-connection closure state relevant to teardown: the session
local, the adapter locals (modelled as open flags), the VAD local, and the
`isAISpeaking` flag. -/
structure MediaStreamState where
  session : Option CallSession
  recognizerOpen : Bool
  transcriberOpen : Bool
  vadActive : Bool
  isAISpeaking : Bool
deriving DecidableEq

/-- The teardown block of the stop handler: stop the session timer, clean
up the session and null it, stop/close/null the recognizer, close/null the
transcriber, destroy/null the VAD. -/
def teardownOnStop (st : MediaStreamState) : MediaStreamState :=
  { st with session := none, recognizerOpen := false, transcriberOpen := false,
            vadActive := false }

/-- The `stop` event handler: if the AI is speaking, log and return —
no deferred-cleanup flag is recorded anywhere; otherwise tear down. -/
def handleStopEvent (st : MediaStreamState) : MediaStreamState :=
  if st.isAISpeaking then st
  else teardownOnStop st

/-- The playback-completion callback: the whole body of the deferred
`setTimeout` at the end of `speakToUser` merely resets `isAISpeaking`. -/
def ttsPlaybackFinished (st : MediaStreamState) : MediaStreamState :=
  { st with isAISpeaking := false }

/-! ## Voice activity detector (vad.ts: VoiceActivityDetector)

Each PCM chunk is abstracted by its computed RMS energy (a nonnegative
rational); the claims about the VAD quantify over chunk energies relative
to the configured thresholds, never over the raw samples.  The debounce
`setTimeout` is modelled by the remaining time until it fires, consumed by
an explicit `vadElapse` step; chunk arrivals carry the time elapsed since
the previous event, matching the single-threaded event loop. -/

/-- The four VAD states. -/
inductive VADState
  | SILENCE
  | SPEECH_STARTING
  | SPEECH_ACTIVE
  | SPEECH_ENDING
deriving DecidableEq

/-- The edge events fired by the VAD callbacks. -/
inductive VADEvent
  | speechStart
  | speechEnd
deriving DecidableEq

/-- Configuration: two thresholds, the debounce duration, and the number of
consecutive above-threshold chunks confirming speech start. -/
structure VADConfig where
  speechThreshold : ℚ
  silenceThreshold : ℚ
  silenceDurationMs : ℚ
  speechStartFrames : Nat
deriving DecidableEq

/-- The configuration the server wires into the detector:
`speechThreshold 800, silenceThreshold 200, silenceDurationMs 800,
speechStartFrames 2`. -/
def serverVADConfig : VADConfig :=
  { speechThreshold := 800, silenceThreshold := 200, silenceDurationMs := 800,
    speechStartFrames := 2 }

/-- The mutable VAD fields; `silenceTimer` is the remaining time on the
pending debounce timeout, `none` when no timer is pending. -/
structure VAD where
  state : VADState
  speechStartFrameCount : Nat
  energyHistory : List ℚ
  silenceTimer : Option ℚ
deriving DecidableEq

/-- `energyHistorySize = 5`: smooth energy over the last 5 chunks. -/
def energyHistorySize : Nat := 5

/-- A fresh detector (also the state after `reset`, timer apart). -/
def initVAD : VAD :=
  { state := .SILENCE, speechStartFrameCount := 0, energyHistory := [], silenceTimer := none }

/-- The history update inside `getSmoothedEnergy`: push, then shift the
oldest entry when the window exceeds `energyHistorySize`. -/
def pushEnergy (h : List ℚ) (e : ℚ) : List ℚ :=
  let h2 := h ++ [e]
  if energyHistorySize < h2.length then h2.tail else h2

/-- The smoothed energy: average of the (updated) history window. -/
def smoothedEnergy (h : List ℚ) : ℚ :=
  h.sum / (h.length : ℚ)

/-- `startSilenceTimer`: arm the debounce timeout unless one is pending. -/
def startSilenceTimer (t : Option ℚ) (d : ℚ) : Option ℚ :=
  match t with
  | some r => some r
  | none => some d

/-- `updateState`: the four-way switch on the current state.  In the
SILENCE branch the transient SPEECH_STARTING assignment is immediately
followed by the SPEECH_ACTIVE assignment in straight-line code, so the
post-call state is SPEECH_ACTIVE. -/
def updateState (cfg : VADConfig) (v : VAD) (energy : ℚ) : VAD × List VADEvent :=
  match v.state with
  | .SILENCE =>
    if cfg.speechThreshold < energy then
      if cfg.speechStartFrames ≤ v.speechStartFrameCount + 1 then
        ({ v with state := .SPEECH_ACTIVE, speechStartFrameCount := 0 }, [.speechStart])
      else ({ v with speechStartFrameCount := v.speechStartFrameCount + 1 }, [])
    else ({ v with speechStartFrameCount := 0 }, [])
  | .SPEECH_STARTING => ({ v with state := .SPEECH_ACTIVE }, [])
  | .SPEECH_ACTIVE =>
    if energy < cfg.silenceThreshold then
      ({ v with state := .SPEECH_ENDING,
                silenceTimer := startSilenceTimer v.silenceTimer cfg.silenceDurationMs }, [])
    else (v, [])
  | .SPEECH_ENDING =>
    if cfg.speechThreshold < energy then
      ({ v with state := .SPEECH_ACTIVE, silenceTimer := none }, [])
    else (v, [])

/-- The audio track a media frame is tagged with at the call site. -/
inductive Track
  | inbound
  | outbound
deriving DecidableEq

/-- `processAudio`: outbound (agent-originated) audio returns before any
state is touched; inbound audio updates the smoothing window and feeds the
smoothed energy to `updateState`. -/
def processAudio (cfg : VADConfig) (v : VAD) (track : Track) (energy : ℚ) : VAD × List VADEvent :=
  if track = Track.outbound then (v, [])
  else
    updateState cfg { v with energyHistory := pushEnergy v.energyHistory energy }
      (smoothedEnergy (pushEnergy v.energyHistory energy))

/-- Let `dt` milliseconds pass: a pending debounce timeout that comes due
fires (state to SILENCE, `onSpeechEnd`); otherwise its remaining time
shrinks. -/
def vadElapse (v : VAD) (dt : ℚ) : VAD × List VADEvent :=
  match v.silenceTimer with
  | none => (v, [])
  | some r =>
    if r ≤ dt then ({ v with state := .SILENCE, silenceTimer := none }, [.speechEnd])
    else ({ v with silenceTimer := some (r - dt) }, [])

/-- A timed chunk: milliseconds since the previous event, then the chunk
energy. -/
abbrev TimedChunk := ℚ × ℚ

/-- Process one timed inbound chunk: let time pass, then run the detector. -/
def stepChunk (cfg : VADConfig) (v : VAD) (c : TimedChunk) : VAD × List VADEvent :=
  ((processAudio cfg (vadElapse v c.1).1 Track.inbound c.2).1,
   (vadElapse v c.1).2 ++ (processAudio cfg (vadElapse v c.1).1 Track.inbound c.2).2)

/-- Process a list of timed inbound chunks, accumulating fired events. -/
def runChunks (cfg : VADConfig) (v : VAD) : List TimedChunk → VAD × List VADEvent
  | [] => (v, [])
  | c :: cs =>
    ((runChunks cfg (stepChunk cfg v c).1 cs).1,
     (stepChunk cfg v c).2 ++ (runChunks cfg (stepChunk cfg v c).1 cs).2)

/-- Run a whole scenario: the timed chunks, then trailing silence of
`finalDt` milliseconds with no further chunks. -/
def runVAD (cfg : VADConfig) (v : VAD) (trace : List TimedChunk) (finalDt : ℚ) :
    VAD × List VADEvent :=
  ((vadElapse (runChunks cfg v trace).1 finalDt).1,
   (runChunks cfg v trace).2 ++ (vadElapse (runChunks cfg v trace).1 finalDt).2)

/-- Every entry of an energy window is nonnegative and strictly below the
silence threshold. -/
def AllLowWindow (cfg : VADConfig) (h : List ℚ) : Prop :=
  ∀ x ∈ h, 0 ≤ x ∧ x < cfg.silenceThreshold

/-- Window invariant once the smoothed energy has dropped below the silence
threshold: the window splits as `A ++ B` with `B` the low-energy entries
pushed since then and `A` the surviving older entries, whose sum is small —
either at most `length A` silence thresholds (the window that established
the invariant) or, once the full 5-slot window has started dropping old
entries, at most 5 silence thresholds.  This caps the smoothed energy at
twice the silence threshold, so a window in this shape can never read as
speech again while only low chunks arrive. -/
def HistInv (cfg : VADConfig) (h : List ℚ) : Prop :=
  ∃ A B, h = A ++ B ∧ AllLowWindow cfg B ∧ (∀ x ∈ A, 0 ≤ x) ∧
    (A.sum ≤ (A.length : ℚ) * cfg.silenceThreshold ∨
     (h.length = 5 ∧ A.sum ≤ 5 * cfg.silenceThreshold))

/-- Phase-1 shape: still counting consecutive above-threshold chunks in
SILENCE, no timer, every window entry above the speech threshold. -/
def VadSilenceCounting (cfg : VADConfig) (v : VAD) (j : Nat) : Prop :=
  v.state = .SILENCE ∧ v.silenceTimer = none ∧ v.speechStartFrameCount = j ∧
  v.energyHistory.length ≤ 5 ∧ (∀ x ∈ v.energyHistory, cfg.speechThreshold < x)

/-- Phase-1 shape after firing: SPEECH_ACTIVE with an all-above-speech
window and no pending timer. -/
def VadActiveAllHigh (cfg : VADConfig) (v : VAD) : Prop :=
  v.state = .SPEECH_ACTIVE ∧ v.silenceTimer = none ∧ v.speechStartFrameCount = 0 ∧
  v.energyHistory ≠ [] ∧ v.energyHistory.length ≤ 5 ∧
  (∀ x ∈ v.energyHistory, cfg.speechThreshold < x)

/-- Phase-2 live shape, still in SPEECH_ACTIVE: no timer, counter 0, and
the smoothed window still at or above the silence threshold. -/
def VadActiveWaiting (cfg : VADConfig) (v : VAD) : Prop :=
  v.state = .SPEECH_ACTIVE ∧ v.silenceTimer = none ∧ v.speechStartFrameCount = 0 ∧
  v.energyHistory ≠ [] ∧ v.energyHistory.length ≤ 5 ∧
  (∀ x ∈ v.energyHistory, 0 ≤ x) ∧
  cfg.silenceThreshold ≤ smoothedEnergy v.energyHistory

/-- Phase-2 debouncing shape: SPEECH_ENDING with a pending timer of at most
the configured debounce duration and a low-shaped window. -/
def VadEndingDebounce (cfg : VADConfig) (v : VAD) : Prop :=
  v.state = .SPEECH_ENDING ∧
  (∃ r, v.silenceTimer = some r ∧ 0 < r ∧ r ≤ cfg.silenceDurationMs) ∧
  v.speechStartFrameCount = 0 ∧ v.energyHistory.length ≤ 5 ∧
  (∀ x ∈ v.energyHistory, 0 ≤ x) ∧ HistInv cfg v.energyHistory

/-- Phase-2 finished shape: back in SILENCE after the speech-end event, no
timer, counter 0, low-shaped window. -/
def VadDoneSilence (cfg : VADConfig) (v : VAD) : Prop :=
  v.state = .SILENCE ∧ v.silenceTimer = none ∧ v.speechStartFrameCount = 0 ∧
  v.energyHistory.length ≤ 5 ∧ (∀ x ∈ v.energyHistory, 0 ≤ x) ∧
  HistInv cfg v.energyHistory

/-! ## Theorems -/

/-- C10: `cleanup()` clears only the `audioChunks` buffer and stops the
elapsed-time timer; the transcripts, filler words, pronunciation results,
conversation history, stream and call identifiers, and start time are all
unchanged, and every accessor over them reads the same values afterwards. -/
theorem cleanup_clears_only_audio_and_timer (s : CallSession) :
    (cleanup s).data.streamSid = s.data.streamSid ∧
    (cleanup s).data.callSid = s.data.callSid ∧
    (cleanup s).data.startTime = s.data.startTime ∧
    (cleanup s).data.transcripts = s.data.transcripts ∧
    (cleanup s).data.fillerWords = s.data.fillerWords ∧
    (cleanup s).data.azureResults = s.data.azureResults ∧
    (cleanup s).data.conversationHistory = s.data.conversationHistory ∧
    (cleanup s).data.audioChunks = [] ∧
    (cleanup s).timerRunning = false ∧
    getFullTranscript (cleanup s).data = getFullTranscript s.data ∧
    getAllTranscripts (cleanup s).data = getAllTranscripts s.data ∧
    getFillerWordCount (cleanup s).data = getFillerWordCount s.data ∧
    getConversationTurnCount (cleanup s).data = getConversationTurnCount s.data ∧
    getConversationContext (cleanup s).data = getConversationContext s.data ∧
    getGeminiFormatHistory (cleanup s).data = getGeminiFormatHistory s.data ∧
    getLatestFinalTranscript (cleanup s).data = getLatestFinalTranscript s.data :=
  ⟨rfl, rfl, rfl, rfl, rfl, rfl, rfl, rfl, rfl, rfl, rfl, rfl, rfl, rfl, rfl, rfl⟩

/-- C8: feeding the detector an outbound-tagged chunk is a complete no-op:
the whole VAD record (state, counter, energy history, pending timer) is
returned unchanged and no edge event fires, so only inbound-tagged audio
can drive VAD transitions. -/
theorem processAudio_outbound_noop (cfg : VADConfig) (v : VAD) (energy : ℚ) :
    processAudio cfg v Track.outbound energy = (v, []) :=
  rfl

/-- Helper for C5: folding the tick handler adds one fire exactly when the
latch is clear and some tick reads exactly 30; the latch ends up set
exactly when it was set or such a tick occurred. -/
theorem processTimerTicks_fires_aux (ticks : List Nat) (st : FeedbackLatch) :
    (processTimerTicks st ticks).feedbackFires =
      st.feedbackFires + (if st.feedbackTriggered = false ∧ 30 ∈ ticks then 1 else 0) := by
  induction ticks generalizing st with
  | nil => simp [processTimerTicks]
  | cons t ts ih =>
    have hstep : processTimerTicks st (t :: ts) = processTimerTicks (feedbackOnTick st t) ts := rfl
    rw [hstep, ih]
    by_cases ht : t = 30
    · subst ht
      by_cases htr : st.feedbackTriggered = false <;>
        simp [feedbackOnTick, htr, List.mem_cons]
    · have ht2 : ¬ (30 = t) := fun h => ht h.symm
      by_cases htr : st.feedbackTriggered = false <;>
        simp [feedbackOnTick, ht, ht2, htr, List.mem_cons]

/-- C5 (amended): starting from a clear latch, the feedback pipeline fires
exactly once when some processed tick reads exactly 30 elapsed seconds and
zero times otherwise; in particular the latch never lets it fire twice,
but a tick batch that skips over the value 30 never fires it at all. -/
theorem feedback_fires_iff_tick_reads_thirty (ticks : List Nat) :
    (processTimerTicks { feedbackTriggered := false, feedbackFires := 0 } ticks).feedbackFires =
      if 30 ∈ ticks then 1 else 0 := by
  have h := processTimerTicks_fires_aux ticks { feedbackTriggered := false, feedbackFires := 0 }
  simpa using h

/-- C5 counterexample: the tick batch `[29, 31]` crosses the 30-second
boundary (29 < 30 ≤ 31) yet the feedback pipeline fires zero times, because
the guard tests `elapsedSeconds === 30` exactly. -/
theorem feedback_skipped_boundary_no_fire :
    29 < 30 ∧ 30 ≤ 31 ∧
    (processTimerTicks { feedbackTriggered := false, feedbackFires := 0 } [29, 31]).feedbackFires
      = 0 ∧ (0 : Nat) ≠ 1 := by
  refine ⟨by decide, by decide, rfl, by decide⟩

/-- C2: a `stop` event arriving while the AI is speaking merely returns
from the handler — no deferred-teardown flag exists — and the playback
completion callback only resets `isAISpeaking`; after both run, the session
is still present with its timer running and the adapters and VAD are still
open, so teardown is skipped on this path rather than deferred. -/
theorem stop_during_speaking_teardown_never_runs :
    (let s : CallSession :=
      { data := { streamSid := "S1", callSid := some "C1", startTime := 0,
                  audioChunks := [[1, 2]], transcripts := [], fillerWords := [],
                  azureResults := [], conversationHistory := [] },
        elapsedTime := 5, timerRunning := true }
     let st : MediaStreamState :=
      { session := some s, recognizerOpen := true, transcriberOpen := true,
        vadActive := true, isAISpeaking := true }
     let after := ttsPlaybackFinished (handleStopEvent st)
     after.session = some s ∧ (after.session.map (fun c => c.timerRunning)) = some true ∧
     after.recognizerOpen = true ∧ after.transcriberOpen = true ∧
     after.vadActive = true ∧ after.isAISpeaking = false) :=
  ⟨rfl, rfl, rfl, rfl, rfl, rfl⟩

/-- C3: the server `onSpeechStart` callback calls
`recognizer.clearAudioBuffer()`, but the `AzureSpeechRecognizer` class
declares no such method, so the call throws a TypeError (swallowed by the
media-event catch) and the per-utterance buffer keeps its leftover audio
instead of being cleared. -/
theorem onSpeechStart_clearAudioBuffer_missing :
    clearAudioBufferDefined = false ∧
    (∀ st : AzureSpeechState, onSpeechStartObservedState st = st) ∧
    (let st := { initAzureSpeechState with currentUtterance := [[7, 7]], currentUtteranceBytes := 2 }
     onSpeechStartClearBuffer st =
       Except.error "TypeError: recognizer.clearAudioBuffer is not a function" ∧
     (onSpeechStartObservedState st).currentUtterance = [[7, 7]]) :=
  ⟨rfl, fun _ => rfl, rfl, rfl⟩

/-- C1: with an assessment oracle that rejects the item with reference text
`first` and accepts everything else, enqueueing the failing item reports
its error (via the catch wired to `onError`) but exits the drain loop with
`isProcessing` stuck at `true`; a subsequently enqueued item is never
assessed and sits in the queue forever, so one failed item does poison the
queue for all later items. -/
theorem failed_assessment_poisons_queue :
    (let assess : AssessmentItem → Bool := fun it => !(it.referenceText == "first")
     let st0 := { initAzureSpeechState with currentUtterance := [[1]], currentUtteranceBytes := 1 }
     let r1 := enqueueAssessment assess st0 "first"
     let r2 := enqueueAssessment assess r1.1 "second"
     r1.2.2 = some { referenceText := "first", audio := [[1]] } ∧
     r1.1.isProcessing = true ∧
     r2.2.1 = [] ∧ r2.2.2 = none ∧
     r2.1.assessmentQueue = [{ referenceText := "second", audio := [] }] ∧
     r2.1.isProcessing = true) :=
  ⟨rfl, rfl, rfl, rfl, rfl, rfl⟩

/-- Helper: `find?` over `range n` returns the least index satisfying the
predicate, mirroring a forward scan loop with `break`. -/
theorem find_first_in_range {p : Nat → Bool} {n i : Nat} (hin : i < n) (hp : p i = true)
    (hmin : ∀ j, j < i → p j = false) : (List.range n).find? p = some i := by
  induction n with
  | zero => omega
  | succ m ih =>
    rw [List.range_succ, List.find?_append]
    rcases Nat.lt_or_ge i m with hlt | hge
    · rw [ih hlt]
      rfl
    · have him : i = m := by omega
      subst him
      have hnone : (List.range i).find? p = none := by
        rw [List.find?_eq_none]
        intro x hx
        simp [hmin x (List.mem_range.mp hx)]
      rw [hnone]
      simp [List.find?, hp]

/-- C7 (amended): `extractPcmFromWav` throws its format error exactly when
no `data` marker starts at any index `i` with `i + 4 < len` — the scan
condition `i < len - 4` never tests the final possible position, so a
marker occupying the last four bytes is not found; when the first such
marker index is `i`, it returns the suffix after the 8-byte sub-header,
whose length is `len - (i + 8)` (truncated at zero). -/
theorem extractPcmFromWav_scan_spec (w : ByteBuf) :
    (extractPcmFromWav w = Except.error "Could not find data chunk in WAV file" ↔
      ∀ i, i + 4 < w.length → ¬ hasDataMarkerAt w i) ∧
    (∀ i, i + 4 < w.length → hasDataMarkerAt w i →
      (∀ j, j < i → ¬ hasDataMarkerAt w j) →
      extractPcmFromWav w = Except.ok (w.drop (i + 8)) ∧
      (w.drop (i + 8)).length = w.length - (i + 8)) := by
  constructor
  · constructor
    · intro herr i hi hm
      have hscan : wavDataScan w = none := by
        cases hs : wavDataScan w with
        | none => rfl
        | some k => simp [extractPcmFromWav, hs] at herr
      rw [wavDataScan, List.find?_eq_none] at hscan
      have := hscan i (List.mem_range.mpr (by omega))
      simp only [decide_eq_true_eq] at this
      exact this hm
    · intro hall
      have hscan : wavDataScan w = none := by
        rw [wavDataScan, List.find?_eq_none]
        intro x hx
        simp only [decide_eq_true_eq]
        exact hall x (by have := List.mem_range.mp hx; omega)
      simp [extractPcmFromWav, hscan]
  · intro i hi hm hmin
    have hscan : wavDataScan w = some i := by
      rw [wavDataScan]
      refine find_first_in_range (by omega) (by simpa using hm) ?_
      intro j hj
      simpa using hmin j hj
    exact ⟨by simp [extractPcmFromWav, hscan], List.length_drop _ _⟩

/-- Witness for C7: on an 11-byte buffer with the marker first at index 1,
the function succeeds and returns the 2 bytes after the sub-header. -/
theorem extractPcmFromWav_scan_spec_witness :
    1 + 4 < ([0, 100, 97, 116, 97, 9, 9, 9, 1, 2, 3] : ByteBuf).length ∧
    hasDataMarkerAt [0, 100, 97, 116, 97, 9, 9, 9, 1, 2, 3] 1 ∧
    extractPcmFromWav [0, 100, 97, 116, 97, 9, 9, 9, 1, 2, 3] =
      Except.ok (([0, 100, 97, 116, 97, 9, 9, 9, 1, 2, 3] : ByteBuf).drop (1 + 8)) ∧
    (([0, 100, 97, 116, 97, 9, 9, 9, 1, 2, 3] : ByteBuf).drop (1 + 8)).length =
      ([0, 100, 97, 116, 97, 9, 9, 9, 1, 2, 3] : ByteBuf).length - (1 + 8) := by
  have h := (extractPcmFromWav_scan_spec [0, 100, 97, 116, 97, 9, 9, 9, 1, 2, 3]).2 1
    (by decide) (by decide)
    (fun j hj => by
      have hj0 : j = 0 := by omega
      subst hj0
      decide)
  exact ⟨by decide, by decide, h.1, h.2⟩

/-- C7 counterexample: the 4-byte buffer that is exactly the `data` marker
contains the marker (at index 0) yet the function throws, because the scan
loop `i < len - 4` performs no iteration on it. -/
theorem extractPcmFromWav_trailing_marker_error :
    hasDataMarkerAt [100, 97, 116, 97] 0 ∧
    extractPcmFromWav [100, 97, 116, 97] =
      Except.error "Could not find data chunk in WAV file" :=
  ⟨by decide, rfl⟩

/-- Helper for C9: `sumBytes` over a snoc. -/
theorem sumBytes_append_single (l : List AudioChunk) (c : AudioChunk) :
    sumBytes (l ++ [c]) = sumBytes l + c.length := by
  simp [sumBytes]

/-- Helper for C9: the front-trimming loop keeps the byte counter equal to
the total chunk bytes, brings it at or below the bound, and only ever
removes chunks from the front (the result is a suffix of the input). -/
theorem trimOldest_spec (l : List AudioChunk) (b : Nat) (h : b = sumBytes l) :
    (trimOldest l b).2 = sumBytes (trimOldest l b).1 ∧
    (trimOldest l b).2 ≤ maxAudioBufferBytes ∧
    List.IsSuffix (trimOldest l b).1 l := by
  induction l generalizing b with
  | nil =>
    subst h
    simp [trimOldest, sumBytes, maxAudioBufferBytes]
  | cons c rest ih =>
    have hsum : sumBytes (c :: rest) = c.length + sumBytes rest := by
      simp [sumBytes]
    by_cases hb : maxAudioBufferBytes < b
    · have hrec : trimOldest (c :: rest) b = trimOldest rest (b - c.length) := by
        simp [trimOldest, hb]
      have hb2 : b - c.length = sumBytes rest := by omega
      rw [hrec]
      obtain ⟨h1, h2, h3⟩ := ih (b - c.length) hb2
      exact ⟨h1, h2, h3.trans (List.suffix_cons c rest)⟩
    · have hrec : trimOldest (c :: rest) b = (c :: rest, b) := by
        simp [trimOldest, hb]
      rw [hrec]
      exact ⟨h, by omega, List.suffix_refl _⟩

/-- C9: on an open adapter, after any `writeAudioChunk` both the rolling
whole-call buffer and the per-utterance buffer hold at most
`maxAudioBufferBytes` (320000) bytes, the byte counters stay consistent
with the stored chunks, and each post-write buffer is a suffix of the old
buffer with the new chunk appended — eviction removes oldest chunks first. -/
theorem writeAudioChunk_buffers_bounded (st : AzureSpeechState) (chunk : AudioChunk)
    (hopen : st.isClosed = false)
    (hau : st.audioBufferBytes = sumBytes st.audioBuffer)
    (hcu : st.currentUtteranceBytes = sumBytes st.currentUtterance) :
    (writeAudioChunk st chunk).audioBufferBytes ≤ maxAudioBufferBytes ∧
    (writeAudioChunk st chunk).currentUtteranceBytes ≤ maxAudioBufferBytes ∧
    (writeAudioChunk st chunk).audioBufferBytes =
      sumBytes (writeAudioChunk st chunk).audioBuffer ∧
    (writeAudioChunk st chunk).currentUtteranceBytes =
      sumBytes (writeAudioChunk st chunk).currentUtterance ∧
    List.IsSuffix (writeAudioChunk st chunk).audioBuffer (st.audioBuffer ++ [chunk]) ∧
    List.IsSuffix (writeAudioChunk st chunk).currentUtterance (st.currentUtterance ++ [chunk]) := by
  have hw : writeAudioChunk st chunk =
      { st with
        audioBuffer := (trimOldest (st.audioBuffer ++ [chunk]) (st.audioBufferBytes + chunk.length)).1,
        audioBufferBytes := (trimOldest (st.audioBuffer ++ [chunk]) (st.audioBufferBytes + chunk.length)).2,
        currentUtterance := (trimOldest (st.currentUtterance ++ [chunk]) (st.currentUtteranceBytes + chunk.length)).1,
        currentUtteranceBytes := (trimOldest (st.currentUtterance ++ [chunk]) (st.currentUtteranceBytes + chunk.length)).2 } := by
    simp [writeAudioChunk, hopen]
  have hauT := trimOldest_spec (st.audioBuffer ++ [chunk]) (st.audioBufferBytes + chunk.length)
    (by rw [sumBytes_append_single, hau])
  have hcuT := trimOldest_spec (st.currentUtterance ++ [chunk]) (st.currentUtteranceBytes + chunk.length)
    (by rw [sumBytes_append_single, hcu])
  rw [hw]
  exact ⟨hauT.2.1, hcuT.2.1, hauT.1, hcuT.1, hauT.2.2, hcuT.2.2⟩

/-- Witness for C9: a concrete open adapter state with consistent counters,
written with a 2-byte chunk, satisfies every conclusion. -/
theorem writeAudioChunk_buffers_bounded_witness :
    (let st : AzureSpeechState :=
      { initAzureSpeechState with
        audioBuffer := [[1], [2, 3]], audioBufferBytes := 3,
        currentUtterance := [[2, 3]], currentUtteranceBytes := 2 }
     st.isClosed = false ∧
     st.audioBufferBytes = sumBytes st.audioBuffer ∧
     st.currentUtteranceBytes = sumBytes st.currentUtterance ∧
     ((writeAudioChunk st [5, 6]).audioBufferBytes ≤ maxAudioBufferBytes ∧
      (writeAudioChunk st [5, 6]).currentUtteranceBytes ≤ maxAudioBufferBytes ∧
      (writeAudioChunk st [5, 6]).audioBufferBytes =
        sumBytes (writeAudioChunk st [5, 6]).audioBuffer ∧
      (writeAudioChunk st [5, 6]).currentUtteranceBytes =
        sumBytes (writeAudioChunk st [5, 6]).currentUtterance ∧
      List.IsSuffix (writeAudioChunk st [5, 6]).audioBuffer (st.audioBuffer ++ [[5, 6]]) ∧
      List.IsSuffix (writeAudioChunk st [5, 6]).currentUtterance (st.currentUtterance ++ [[5, 6]]))) := by
  exact ⟨rfl, by decide, by decide,
    writeAudioChunk_buffers_bounded _ [5, 6] rfl (by decide) (by decide)⟩

/-- C4 counterexample: with two final fragments recorded in order
`hello` (timestamp 1) then `world` (timestamp 2) and no user turn yet,
`getLatestFinalTranscript` returns `world hello` — the fragments joined
newest first — not `hello world`, the order they were recorded. -/
theorem getLatestFinalTranscript_not_recorded_order :
    (let s : CallSessionData :=
      { streamSid := "S1", callSid := none, startTime := 0, audioChunks := [],
        transcripts := [⟨"hello", true, 1, none⟩, ⟨"world", true, 2, none⟩],
        fillerWords := [], azureResults := [], conversationHistory := [] }
     getLatestFinalTranscript s = some "world hello" ∧
     some "world hello" ≠ some "hello world") :=
  ⟨rfl, by decide⟩

/-- C4 (amended): `getLatestFinalTranscript` returns `none` exactly when no
final transcript exists at all; and whenever the single-space join of the
final fragments newer than the last user turn is nonempty, it returns that
join taken over the fragments ordered newest first — a stably descending
reordering (by timestamp) of the matching entries, not their recorded
order. -/
theorem getLatestFinalTranscript_newest_first (s : CallSessionData)
    (hjoin : recentTranscriptsJoined s ≠ "") :
    (getLatestFinalTranscript s = none ↔ s.transcripts.filter (fun t => t.isFinal) = []) ∧
    ∃ L : List TranscriptEntry,
      L.Perm ((s.transcripts.filter (fun t => t.isFinal)).filter
        (fun t => lastUserMessageTime s < t.timestamp)) ∧
      List.Sorted newestFirst L ∧
      getLatestFinalTranscript s =
        some (jsTrim (String.intercalate " " (L.map (fun t => t.text)))) := by
  have hperm : (finalsNewestFirst s).Perm (s.transcripts.filter (fun t => t.isFinal)) :=
    List.perm_insertionSort _ _
  constructor
  · constructor
    · intro hn
      cases hfs : finalsNewestFirst s with
      | nil =>
        rw [hfs] at hperm
        exact (hperm.symm).eq_nil
      | cons a as =>
        rw [getLatestFinalTranscript, hfs] at hn
        by_cases hr : recentTranscriptsJoined s = "" <;> simp [hr] at hn
    · intro hf
      have hfs : finalsNewestFirst s = [] := by
        rw [hf] at hperm
        exact hperm.eq_nil
      simp [getLatestFinalTranscript, hfs]
  · refine ⟨(finalsNewestFirst s).filter (fun t => lastUserMessageTime s < t.timestamp),
      hperm.filter _, List.Pairwise.filter _ (List.sorted_insertionSort newestFirst _), ?_⟩
    cases hfs : finalsNewestFirst s with
    | nil =>
      exfalso
      apply hjoin
      rw [recentTranscriptsJoined, hfs]
      rfl
    | cons a as =>
      have hred : getLatestFinalTranscript s =
          if recentTranscriptsJoined s = "" then some a.text else some (recentTranscriptsJoined s) := by
        rw [getLatestFinalTranscript, hfs]
      rw [hred, if_neg hjoin, recentTranscriptsJoined, hfs]

/-- Witness for C4: the concrete two-fragment session satisfies the
hypothesis and the full conclusion of the amended theorem. -/
theorem getLatestFinalTranscript_newest_first_witness :
    (let s : CallSessionData :=
      { streamSid := "S1", callSid := none, startTime := 0, audioChunks := [],
        transcripts := [⟨"hello", true, 1, none⟩, ⟨"world", true, 2, none⟩],
        fillerWords := [], azureResults := [], conversationHistory := [] }
     recentTranscriptsJoined s ≠ "" ∧
     ((getLatestFinalTranscript s = none ↔ s.transcripts.filter (fun t => t.isFinal) = []) ∧
      ∃ L : List TranscriptEntry,
        L.Perm ((s.transcripts.filter (fun t => t.isFinal)).filter
          (fun t => lastUserMessageTime s < t.timestamp)) ∧
        List.Sorted newestFirst L ∧
        getLatestFinalTranscript s =
          some (jsTrim (String.intercalate " " (L.map (fun t => t.text)))))) :=
  ⟨by decide, getLatestFinalTranscript_newest_first _ (by decide)⟩

/-- A nonempty list of entries all above `t` sums above `length * t`. -/
theorem mul_len_lt_sum_of_all_gt {t : ℚ} :
    ∀ (h : List ℚ), h ≠ [] → (∀ x ∈ h, t < x) → (h.length : ℚ) * t < h.sum := by
  intro h
  induction h with
  | nil => intro hne _; simp at hne
  | cons x xs ih =>
    intro _ hall
    rcases eq_or_ne xs [] with hxs | hxs
    · subst hxs
      simpa using hall x (by simp)
    · have hx : t < x := hall x (by simp)
      have hs := ih hxs (fun z hz => hall z (by simp [hz]))
      simp only [List.length_cons, List.sum_cons]
      push_cast
      linarith

/-- A nonempty list of entries all below `t` sums below `length * t`. -/
theorem sum_lt_mul_len_of_all_lt {t : ℚ} :
    ∀ (h : List ℚ), h ≠ [] → (∀ x ∈ h, x < t) → h.sum < (h.length : ℚ) * t := by
  intro h
  induction h with
  | nil => intro hne _; simp at hne
  | cons x xs ih =>
    intro _ hall
    rcases eq_or_ne xs [] with hxs | hxs
    · subst hxs
      simpa using hall x (by simp)
    · have hx : x < t := hall x (by simp)
      have hs := ih hxs (fun z hz => hall z (by simp [hz]))
      simp only [List.length_cons, List.sum_cons]
      push_cast
      linarith

/-- The smoothed energy of a nonempty all-above-`t` window exceeds `t`. -/
theorem smoothed_gt_of_all_gt {t : ℚ} (h : List ℚ) (hne : h ≠ [])
    (hall : ∀ x ∈ h, t < x) : t < smoothedEnergy h := by
  have hlen : (0 : ℚ) < (h.length : ℚ) := by
    exact_mod_cast List.length_pos.mpr hne
  rw [smoothedEnergy, lt_div_iff₀ hlen, mul_comm]
  exact mul_len_lt_sum_of_all_gt h hne hall

/-- The smoothed energy of a nonempty all-below-`t` window is below `t`. -/
theorem smoothed_lt_of_all_lt {t : ℚ} (h : List ℚ) (hne : h ≠ [])
    (hall : ∀ x ∈ h, x < t) : smoothedEnergy h < t := by
  have hlen : (0 : ℚ) < (h.length : ℚ) := by
    exact_mod_cast List.length_pos.mpr hne
  rw [smoothedEnergy, div_lt_iff₀ hlen, mul_comm]
  exact sum_lt_mul_len_of_all_lt h hne hall

/-- Entries all at most `t` sum to at most `length * t`. -/
theorem sum_le_mul_len_of_all_le {t : ℚ} (h : List ℚ) (hall : ∀ x ∈ h, x ≤ t) :
    h.sum ≤ (h.length : ℚ) * t := by
  have := List.sum_le_card_nsmul h t hall
  simpa [nsmul_eq_mul] using this

/-- A window satisfying `HistInv` has smoothed energy at most twice the
silence threshold. -/
theorem histInv_smoothed_le (cfg : VADConfig) (hTs : 0 < cfg.silenceThreshold)
    {h : List ℚ} (hinv : HistInv cfg h) (hne : h ≠ []) :
    smoothedEnergy h ≤ 2 * cfg.silenceThreshold := by
  obtain ⟨A, B, hAB, hBlow, _, hbound⟩ := hinv
  have hBsum : B.sum ≤ (B.length : ℚ) * cfg.silenceThreshold :=
    sum_le_mul_len_of_all_le B (fun x hx => le_of_lt (hBlow x hx).2)
  have hlen : (0 : ℚ) < (h.length : ℚ) := by
    exact_mod_cast List.length_pos.mpr hne
  have hsum : h.sum = A.sum + B.sum := by rw [hAB, List.sum_append]
  have hlen2 : h.length = A.length + B.length := by rw [hAB, List.length_append]
  rw [smoothedEnergy, div_le_iff₀ hlen]
  rcases hbound with h1 | ⟨h5, h2⟩
  · have hA0 : (0 : ℚ) ≤ (A.length : ℚ) := by positivity
    have hB0 : (0 : ℚ) ≤ (B.length : ℚ) := by positivity
    have hcast : (h.length : ℚ) = (A.length : ℚ) + (B.length : ℚ) := by
      rw [hlen2]; push_cast; ring
    nlinarith [hBsum, h1, hTs]
  · have hB5 : (B.length : ℚ) ≤ 5 := by
      have hb : B.length ≤ h.length := by omega
      have : B.length ≤ 5 := by omega
      exact_mod_cast this
    have hlen5 : (h.length : ℚ) = 5 := by
      rw [h5]; norm_num
    rw [hlen5]
    nlinarith [h2, hBsum, hB5, hTs]

/-- `pushEnergy` never yields an empty window. -/
theorem pushEnergy_ne_nil (h : List ℚ) (e : ℚ) : pushEnergy h e ≠ [] := by
  rw [pushEnergy]
  split_ifs with hl
  · simp [energyHistorySize] at hl
    intro hcontra
    have hlen : (h ++ [e]).tail.length = 0 := by rw [hcontra]; rfl
    rw [List.length_tail] at hlen
    simp only [List.length_append, List.length_cons, List.length_nil] at hlen
    omega
  · simp

/-- Window length after a push, given the 5-slot bound held before. -/
theorem pushEnergy_length (h : List ℚ) (e : ℚ) (hle : h.length ≤ 5) :
    (pushEnergy h e).length = min (h.length + 1) 5 := by
  rw [pushEnergy]
  split_ifs with hl <;> simp [energyHistorySize] at hl ⊢ <;> omega

/-- The pushed window is a suffix of the old window with the new entry
appended. -/
theorem pushEnergy_suffix (h : List ℚ) (e : ℚ) :
    List.IsSuffix (pushEnergy h e) (h ++ [e]) := by
  rw [pushEnergy]
  split_ifs
  · exact List.tail_suffix _
  · exact List.suffix_refl _

/-- Membership after a push comes from the old window or is the new entry. -/
theorem pushEnergy_mem {h : List ℚ} {e x : ℚ} (hx : x ∈ pushEnergy h e) :
    x ∈ h ∨ x = e := by
  have := (pushEnergy_suffix h e).subset hx
  simpa using this

/-- `HistInv` is preserved by pushing a low-energy entry. -/
theorem histInv_push (cfg : VADConfig) {h : List ℚ} {e : ℚ}
    (hinv : HistInv cfg h) (hlen : h.length ≤ 5)
    (hTs : 0 < cfg.silenceThreshold) (he0 : 0 ≤ e) (heT : e < cfg.silenceThreshold) :
    HistInv cfg (pushEnergy h e) := by
  obtain ⟨A, B, hAB, hBlow, hAnn, hbound⟩ := hinv
  by_cases h5 : energyHistorySize < (h ++ [e]).length
  · have hlen5 : h.length = 5 := by
      simp [energyHistorySize] at h5
      omega
    have hpe : pushEnergy h e = (h ++ [e]).tail := by
      rw [pushEnergy, if_pos h5]
    have hpelen : (pushEnergy h e).length = 5 := by
      rw [pushEnergy_length h e hlen, hlen5]
      decide
    cases A with
    | nil =>
      have hB : h = B := by simpa using hAB
      obtain ⟨b, B2, rfl⟩ : ∃ b B2, B = b :: B2 := by
        cases B with
        | nil => exfalso; rw [hB] at hlen5; simp at hlen5
        | cons b B2 => exact ⟨b, B2, rfl⟩
      refine ⟨[], B2 ++ [e], ?_, ?_, by simp, Or.inl (by simp)⟩
      · rw [hpe, hB]
        simp
      · intro z hz
        rcases List.mem_append.mp hz with hz2 | hz2
        · exact hBlow z (by simp [hz2])
        · have : z = e := by simpa using hz2
          exact this ▸ ⟨he0, heT⟩
    | cons a A2 =>
      have hAsum : A2.sum ≤ 5 * cfg.silenceThreshold := by
        have ha0 : 0 ≤ a := hAnn a (by simp)
        have hAlen : (a :: A2).length ≤ 5 := by
          have : (a :: A2).length ≤ h.length := by
            rw [hAB]; simp
          omega
        rcases hbound with h1 | ⟨_, h2⟩
        · have hcast : ((a :: A2).length : ℚ) ≤ 5 := by exact_mod_cast hAlen
          have : (a :: A2).sum ≤ 5 * cfg.silenceThreshold := by
            calc (a :: A2).sum ≤ ((a :: A2).length : ℚ) * cfg.silenceThreshold := h1
            _ ≤ 5 * cfg.silenceThreshold := by nlinarith [hTs]
          simp only [List.sum_cons] at this
          linarith
        · simp only [List.sum_cons] at h2
          linarith
      refine ⟨A2, B ++ [e], ?_, ?_, fun z hz => hAnn z (by simp [hz]), Or.inr ⟨hpelen, hAsum⟩⟩
      · rw [hpe, hAB]
        simp
      · intro z hz
        rcases List.mem_append.mp hz with hz2 | hz2
        · exact hBlow z hz2
        · have : z = e := by simpa using hz2
          exact this ▸ ⟨he0, heT⟩
  · have hpe : pushEnergy h e = h ++ [e] := by
      rw [pushEnergy, if_neg h5]
    have hb1 : A.sum ≤ (A.length : ℚ) * cfg.silenceThreshold := by
      rcases hbound with h1 | ⟨hl5, _⟩
      · exact h1
      · exfalso
        simp [energyHistorySize] at h5
        omega
    refine ⟨A, B ++ [e], by rw [hpe, hAB, List.append_assoc], ?_, hAnn, Or.inl hb1⟩
    intro z hz
    rcases List.mem_append.mp hz with hz2 | hz2
    · exact hBlow z hz2
    · have : z = e := by simpa using hz2
      exact this ▸ ⟨he0, heT⟩

/-- `HistInv` is established the moment the smoothed window drops below the
silence threshold. -/
theorem histInv_establish (cfg : VADConfig) {h : List ℚ}
    (hnn : ∀ x ∈ h, 0 ≤ x) (hs : smoothedEnergy h < cfg.silenceThreshold) :
    HistInv cfg h := by
  refine ⟨h, [], by simp, by simp [AllLowWindow], hnn, Or.inl ?_⟩
  rcases eq_or_ne h [] with rfl | hne
  · simp
  · have hlen : (0 : ℚ) < (h.length : ℚ) := by
      exact_mod_cast List.length_pos.mpr hne
    rw [smoothedEnergy, div_lt_iff₀ hlen] at hs
    nlinarith [hs]

/-- `updateState` never touches the energy window. -/
theorem updateState_hist (cfg : VADConfig) (v : VAD) (e : ℚ) :
    (updateState cfg v e).1.energyHistory = v.energyHistory := by
  rcases v with ⟨st, cnt, hist, tmr⟩
  rcases st <;> simp [updateState] <;> split_ifs <;> rfl

/-- `vadElapse` never touches the energy window. -/
theorem vadElapse_hist (v : VAD) (dt : ℚ) :
    (vadElapse v dt).1.energyHistory = v.energyHistory := by
  rcases v with ⟨st, cnt, hist, tmr⟩
  rcases tmr <;> simp [vadElapse] <;> split_ifs <;> rfl

/-- One timed chunk pushes exactly its energy onto the window. -/
theorem stepChunk_hist (cfg : VADConfig) (v : VAD) (c : TimedChunk) :
    (stepChunk cfg v c).1.energyHistory = pushEnergy v.energyHistory c.2 := by
  rw [stepChunk]
  have h1 := vadElapse_hist v c.1
  simp only [processAudio]
  rw [if_neg (by simp)]
  rw [updateState_hist]
  simp [h1]

/-- Running a concatenated trace runs the pieces in sequence and
concatenates the fired events. -/
theorem runChunks_append (cfg : VADConfig) (v : VAD) (l1 l2 : List TimedChunk) :
    runChunks cfg v (l1 ++ l2) =
      ((runChunks cfg (runChunks cfg v l1).1 l2).1,
       (runChunks cfg v l1).2 ++ (runChunks cfg (runChunks cfg v l1).1 l2).2) := by
  induction l1 generalizing v with
  | nil => simp [runChunks]
  | cons c cs ih =>
    simp only [List.cons_append, runChunks, List.append_eq]
    rw [ih]
    simp [List.append_assoc]

/-- The window after a run is a suffix of the starting window with the
trace energies appended. -/
theorem runChunks_hist_suffix (cfg : VADConfig) (ls : List TimedChunk) : ∀ (v : VAD),
    List.IsSuffix (runChunks cfg v ls).1.energyHistory
      (v.energyHistory ++ ls.map (fun c => c.2)) := by
  induction ls with
  | nil =>
    intro v
    simp [runChunks]
  | cons c cs ih =>
    intro v
    have hstep : (runChunks cfg v (c :: cs)).1 = (runChunks cfg (stepChunk cfg v c).1 cs).1 := by
      simp [runChunks]
    have h2 := ih (stepChunk cfg v c).1
    rw [stepChunk_hist] at h2
    have h3 : List.IsSuffix (pushEnergy v.energyHistory c.2 ++ cs.map (fun c => c.2))
        ((v.energyHistory ++ [c.2]) ++ cs.map (fun c => c.2)) := by
      obtain ⟨t, ht⟩ := pushEnergy_suffix v.energyHistory c.2
      exact ⟨t, by rw [← List.append_assoc, ht]⟩
    rw [hstep]
    have := h2.trans h3
    simpa [List.append_assoc] using this

/-- The window length after a run, given the 5-slot bound held before. -/
theorem runChunks_hist_length (cfg : VADConfig) (ls : List TimedChunk) : ∀ (v : VAD),
    v.energyHistory.length ≤ 5 →
    (runChunks cfg v ls).1.energyHistory.length =
      min (v.energyHistory.length + ls.length) 5 := by
  induction ls with
  | nil =>
    intro v hv
    simp [runChunks]
    omega
  | cons c cs ih =>
    intro v hv
    have hstep : (runChunks cfg v (c :: cs)).1 = (runChunks cfg (stepChunk cfg v c).1 cs).1 := by
      simp [runChunks]
    have hph := stepChunk_hist cfg v c
    have hplen := pushEnergy_length v.energyHistory c.2 hv
    rw [hstep, ih _ (by rw [hph, hplen]; omega), hph, hplen]
    simp only [List.length_cons]
    all_goals omega

/-- Evaluation: elapsing with no pending timer is a no-op. -/
theorem vadElapse_none (st : VADState) (cnt : Nat) (hist : List ℚ) (dt : ℚ) :
    vadElapse ⟨st, cnt, hist, none⟩ dt = (⟨st, cnt, hist, none⟩, []) := rfl

/-- Evaluation: elapsing with a pending timer fires it when it comes due. -/
theorem vadElapse_some (st : VADState) (cnt : Nat) (hist : List ℚ) (r dt : ℚ) :
    vadElapse ⟨st, cnt, hist, some r⟩ dt =
      (if r ≤ dt then (⟨.SILENCE, cnt, hist, none⟩, [.speechEnd])
       else (⟨st, cnt, hist, some (r - dt)⟩, [])) := rfl

/-- Evaluation: inbound audio pushes the energy and runs `updateState`. -/
theorem processAudio_inbound (cfg : VADConfig) (st : VADState) (cnt : Nat)
    (hist : List ℚ) (tmr : Option ℚ) (e : ℚ) :
    processAudio cfg ⟨st, cnt, hist, tmr⟩ Track.inbound e =
      updateState cfg ⟨st, cnt, pushEnergy hist e, tmr⟩
        (smoothedEnergy (pushEnergy hist e)) := rfl

/-- Evaluation: the SILENCE branch of `updateState`. -/
theorem updateState_silence (cfg : VADConfig) (cnt : Nat) (hist : List ℚ)
    (tmr : Option ℚ) (e : ℚ) :
    updateState cfg ⟨.SILENCE, cnt, hist, tmr⟩ e =
      (if cfg.speechThreshold < e then
        (if cfg.speechStartFrames ≤ cnt + 1 then
          (⟨.SPEECH_ACTIVE, 0, hist, tmr⟩, [.speechStart])
         else (⟨.SILENCE, cnt + 1, hist, tmr⟩, []))
       else (⟨.SILENCE, 0, hist, tmr⟩, [])) := rfl

/-- Evaluation: the SPEECH_ACTIVE branch of `updateState`. -/
theorem updateState_active (cfg : VADConfig) (cnt : Nat) (hist : List ℚ)
    (tmr : Option ℚ) (e : ℚ) :
    updateState cfg ⟨.SPEECH_ACTIVE, cnt, hist, tmr⟩ e =
      (if e < cfg.silenceThreshold then
        (⟨.SPEECH_ENDING, cnt, hist, startSilenceTimer tmr cfg.silenceDurationMs⟩, [])
       else (⟨.SPEECH_ACTIVE, cnt, hist, tmr⟩, [])) := rfl

/-- Evaluation: the SPEECH_ENDING branch of `updateState`. -/
theorem updateState_ending (cfg : VADConfig) (cnt : Nat) (hist : List ℚ)
    (tmr : Option ℚ) (e : ℚ) :
    updateState cfg ⟨.SPEECH_ENDING, cnt, hist, tmr⟩ e =
      (if cfg.speechThreshold < e then (⟨.SPEECH_ACTIVE, cnt, hist, none⟩, [])
       else (⟨.SPEECH_ENDING, cnt, hist, tmr⟩, [])) := rfl

/-- A suffix of `a ++ b` no longer than `b` is a suffix of `b`. -/
theorem suffix_of_append_of_length_le {α : Type} {l a b : List α}
    (h : List.IsSuffix l (a ++ b)) (hl : l.length ≤ b.length) : List.IsSuffix l b := by
  rcases List.suffix_or_suffix_of_suffix h (List.suffix_append a b) with h2 | h2
  · exact h2
  · have heq : b = l := h2.eq_of_length (le_antisymm h2.length_le hl)
    rw [← heq]

/-- One low chunk from the SPEECH_ACTIVE waiting shape fires nothing and
either keeps waiting (smoothing still at or above the silence threshold) or
enters SPEECH_ENDING with a freshly armed debounce timer. -/
theorem step_low_active (cfg : VADConfig) (hTs : 0 < cfg.silenceThreshold)
    (hD : 0 < cfg.silenceDurationMs) (v : VAD) (c : TimedChunk)
    (he0 : 0 ≤ c.2) (heT : c.2 < cfg.silenceThreshold)
    (hv : VadActiveWaiting cfg v) :
    (stepChunk cfg v c).2 = [] ∧
    (VadActiveWaiting cfg (stepChunk cfg v c).1 ∨
      VadEndingDebounce cfg (stepChunk cfg v c).1) := by
  obtain ⟨hst, htm, hcnt, hne, hlen, hnn, hsm⟩ := hv
  rcases v with ⟨st, cnt, hist, tmr⟩
  simp only at hst htm hcnt hne hlen hnn hsm
  subst hst htm hcnt
  have hne2 : pushEnergy hist c.2 ≠ [] := pushEnergy_ne_nil _ _
  have hlen2 : (pushEnergy hist c.2).length ≤ 5 := by
    rw [pushEnergy_length _ _ hlen]
    omega
  have hnn2 : ∀ x ∈ pushEnergy hist c.2, 0 ≤ x := by
    intro x hx
    rcases pushEnergy_mem hx with h | h
    · exact hnn x h
    · rw [h]; exact he0
  rw [stepChunk, vadElapse_none]
  simp only [processAudio_inbound, updateState_active, startSilenceTimer]
  by_cases hcond : smoothedEnergy (pushEnergy hist c.2) < cfg.silenceThreshold
  · rw [if_pos hcond]
    refine ⟨rfl, Or.inr ⟨rfl, ⟨cfg.silenceDurationMs, rfl, hD, le_refl _⟩, rfl, hlen2, hnn2, ?_⟩⟩
    exact histInv_establish cfg hnn2 hcond
  · rw [if_neg hcond]
    exact ⟨rfl, Or.inl ⟨rfl, rfl, rfl, hne2, hlen2, hnn2, le_of_not_lt hcond⟩⟩

/-- One low chunk from the SPEECH_ENDING debounce shape either keeps
debouncing (timer not yet due, window still low-shaped) or fires exactly
the speech-end event when the timer comes due during the elapse. -/
theorem step_low_ending (cfg : VADConfig) (hTs : 0 < cfg.silenceThreshold)
    (hTp : 2 * cfg.silenceThreshold ≤ cfg.speechThreshold)
    (v : VAD) (c : TimedChunk) (hdt : 0 ≤ c.1)
    (he0 : 0 ≤ c.2) (heT : c.2 < cfg.silenceThreshold)
    (hv : VadEndingDebounce cfg v) :
    ((stepChunk cfg v c).2 = [] ∧ VadEndingDebounce cfg (stepChunk cfg v c).1) ∨
    ((stepChunk cfg v c).2 = [VADEvent.speechEnd] ∧
      VadDoneSilence cfg (stepChunk cfg v c).1) := by
  obtain ⟨hst, ⟨r, htm, hr0, hrD⟩, hcnt, hlen, hnn, hinv⟩ := hv
  rcases v with ⟨st, cnt, hist, tmr⟩
  simp only at hst htm hcnt hlen hnn hinv
  subst hst htm hcnt
  have hne2 : pushEnergy hist c.2 ≠ [] := pushEnergy_ne_nil _ _
  have hlen2 : (pushEnergy hist c.2).length ≤ 5 := by
    rw [pushEnergy_length _ _ hlen]
    omega
  have hnn2 : ∀ x ∈ pushEnergy hist c.2, 0 ≤ x := by
    intro x hx
    rcases pushEnergy_mem hx with h | h
    · exact hnn x h
    · rw [h]; exact he0
  have hinv2 : HistInv cfg (pushEnergy hist c.2) := histInv_push cfg hinv hlen hTs he0 heT
  have hnotgt : ¬ (cfg.speechThreshold < smoothedEnergy (pushEnergy hist c.2)) := by
    have := histInv_smoothed_le cfg hTs hinv2 hne2
    exact not_lt.mpr (by linarith)
  rw [stepChunk, vadElapse_some]
  by_cases hfire : r ≤ c.1
  · rw [if_pos hfire]
    simp only [processAudio_inbound, updateState_silence]
    rw [if_neg hnotgt]
    exact Or.inr ⟨rfl, rfl, rfl, rfl, hlen2, hnn2, hinv2⟩
  · rw [if_neg hfire]
    simp only [processAudio_inbound, updateState_ending]
    rw [if_neg hnotgt]
    refine Or.inl ⟨rfl, rfl, ⟨r - c.1, rfl, ?_, ?_⟩, rfl, hlen2, hnn2, hinv2⟩
    · have : c.1 < r := lt_of_not_le hfire
      linarith
    · linarith

/-- One low chunk from the post-end SILENCE shape stays silent and fires
nothing: the low-shaped window can never read above the speech threshold. -/
theorem step_low_done (cfg : VADConfig) (hTs : 0 < cfg.silenceThreshold)
    (hTp : 2 * cfg.silenceThreshold ≤ cfg.speechThreshold)
    (v : VAD) (c : TimedChunk)
    (he0 : 0 ≤ c.2) (heT : c.2 < cfg.silenceThreshold)
    (hv : VadDoneSilence cfg v) :
    (stepChunk cfg v c).2 = [] ∧ VadDoneSilence cfg (stepChunk cfg v c).1 := by
  obtain ⟨hst, htm, hcnt, hlen, hnn, hinv⟩ := hv
  rcases v with ⟨st, cnt, hist, tmr⟩
  simp only at hst htm hcnt hlen hnn hinv
  subst hst htm hcnt
  have hne2 : pushEnergy hist c.2 ≠ [] := pushEnergy_ne_nil _ _
  have hlen2 : (pushEnergy hist c.2).length ≤ 5 := by
    rw [pushEnergy_length _ _ hlen]
    omega
  have hnn2 : ∀ x ∈ pushEnergy hist c.2, 0 ≤ x := by
    intro x hx
    rcases pushEnergy_mem hx with h | h
    · exact hnn x h
    · rw [h]; exact he0
  have hinv2 : HistInv cfg (pushEnergy hist c.2) := histInv_push cfg hinv hlen hTs he0 heT
  have hnotgt : ¬ (cfg.speechThreshold < smoothedEnergy (pushEnergy hist c.2)) := by
    have := histInv_smoothed_le cfg hTs hinv2 hne2
    exact not_lt.mpr (by linarith)
  rw [stepChunk, vadElapse_none]
  simp only [processAudio_inbound, updateState_silence]
  rw [if_neg hnotgt]
  exact ⟨rfl, rfl, rfl, rfl, hlen2, hnn2, hinv2⟩

/-- One high chunk while counting in SILENCE: either the consecutive-chunk
count reaches the configured frames and exactly one speech-start fires
(entering SPEECH_ACTIVE), or the count just increments. -/
theorem step_high_silence (cfg : VADConfig) (v : VAD) (c : TimedChunk) (j : Nat)
    (hc : cfg.speechThreshold < c.2) (hv : VadSilenceCounting cfg v j) :
    (cfg.speechStartFrames ≤ j + 1 →
      (stepChunk cfg v c).2 = [VADEvent.speechStart] ∧
      VadActiveAllHigh cfg (stepChunk cfg v c).1) ∧
    (¬ cfg.speechStartFrames ≤ j + 1 →
      (stepChunk cfg v c).2 = [] ∧
      VadSilenceCounting cfg (stepChunk cfg v c).1 (j + 1)) := by
  obtain ⟨hst, htm, hcnt, hlen, hall⟩ := hv
  rcases v with ⟨st, cnt, hist, tmr⟩
  simp only at hst htm hcnt hlen hall
  subst hst htm hcnt
  have hne2 : pushEnergy hist c.2 ≠ [] := pushEnergy_ne_nil _ _
  have hlen2 : (pushEnergy hist c.2).length ≤ 5 := by
    rw [pushEnergy_length _ _ hlen]
    omega
  have hall2 : ∀ x ∈ pushEnergy hist c.2, cfg.speechThreshold < x := by
    intro x hx
    rcases pushEnergy_mem hx with h | h
    · exact hall x h
    · rw [h]; exact hc
  have hgt : cfg.speechThreshold < smoothedEnergy (pushEnergy hist c.2) :=
    smoothed_gt_of_all_gt _ hne2 hall2
  rw [stepChunk, vadElapse_none]
  simp only [processAudio_inbound, updateState_silence]
  rw [if_pos hgt]
  constructor
  · intro hK
    rw [if_pos hK]
    exact ⟨rfl, rfl, rfl, rfl, hne2, hlen2, hall2⟩
  · intro hK
    rw [if_neg hK]
    exact ⟨rfl, rfl, rfl, rfl, hlen2, hall2⟩

/-- One high chunk in the post-start SPEECH_ACTIVE all-high shape stays in
that shape and fires nothing. -/
theorem step_high_active (cfg : VADConfig) (hTs : 0 < cfg.silenceThreshold)
    (hTp : 2 * cfg.silenceThreshold ≤ cfg.speechThreshold)
    (v : VAD) (c : TimedChunk)
    (hc : cfg.speechThreshold < c.2) (hv : VadActiveAllHigh cfg v) :
    (stepChunk cfg v c).2 = [] ∧ VadActiveAllHigh cfg (stepChunk cfg v c).1 := by
  obtain ⟨hst, htm, hcnt, hne, hlen, hall⟩ := hv
  rcases v with ⟨st, cnt, hist, tmr⟩
  simp only at hst htm hcnt hne hlen hall
  subst hst htm hcnt
  have hne2 : pushEnergy hist c.2 ≠ [] := pushEnergy_ne_nil _ _
  have hlen2 : (pushEnergy hist c.2).length ≤ 5 := by
    rw [pushEnergy_length _ _ hlen]
    omega
  have hall2 : ∀ x ∈ pushEnergy hist c.2, cfg.speechThreshold < x := by
    intro x hx
    rcases pushEnergy_mem hx with h | h
    · exact hall x h
    · rw [h]; exact hc
  have hgt : cfg.speechThreshold < smoothedEnergy (pushEnergy hist c.2) :=
    smoothed_gt_of_all_gt _ hne2 hall2
  have hnotlt : ¬ (smoothedEnergy (pushEnergy hist c.2) < cfg.silenceThreshold) :=
    not_lt.mpr (by linarith)
  rw [stepChunk, vadElapse_none]
  simp only [processAudio_inbound, updateState_active]
  rw [if_neg hnotlt]
  exact ⟨rfl, rfl, rfl, rfl, hne2, hlen2, hall2⟩

/-- Running any all-low trace from the post-end SILENCE shape fires
nothing further. -/
theorem run_low_done (cfg : VADConfig) (hTs : 0 < cfg.silenceThreshold)
    (hTp : 2 * cfg.silenceThreshold ≤ cfg.speechThreshold)
    (ls : List TimedChunk)
    (hls : ∀ c ∈ ls, 0 ≤ c.1 ∧ 0 ≤ c.2 ∧ c.2 < cfg.silenceThreshold) :
    ∀ v, VadDoneSilence cfg v →
    (runChunks cfg v ls).2 = [] ∧ VadDoneSilence cfg (runChunks cfg v ls).1 := by
  induction ls with
  | nil => exact fun v hv => ⟨rfl, hv⟩
  | cons c cs ih =>
    intro v hv
    have hc := hls c (by simp)
    have hstep := step_low_done cfg hTs hTp v c hc.2.1 hc.2.2 hv
    have hrest := ih (fun x hx => hls x (by simp [hx])) _ hstep.2
    exact ⟨by rw [runChunks]; rw [hstep.1, hrest.1]; rfl, hrest.2⟩

/-- Running an all-low trace from a live phase-2 shape fires at most one
speech-end event: either nothing has fired yet and the detector is still
waiting or debouncing, or exactly one speech-end has fired. -/
theorem run_low (cfg : VADConfig) (hTs : 0 < cfg.silenceThreshold)
    (hTp : 2 * cfg.silenceThreshold ≤ cfg.speechThreshold)
    (hD : 0 < cfg.silenceDurationMs)
    (ls : List TimedChunk)
    (hls : ∀ c ∈ ls, 0 ≤ c.1 ∧ 0 ≤ c.2 ∧ c.2 < cfg.silenceThreshold) :
    ∀ v, (VadActiveWaiting cfg v ∨ VadEndingDebounce cfg v) →
    ((runChunks cfg v ls).2 = [] ∧
      (VadActiveWaiting cfg (runChunks cfg v ls).1 ∨
       VadEndingDebounce cfg (runChunks cfg v ls).1)) ∨
    ((runChunks cfg v ls).2 = [VADEvent.speechEnd] ∧
      VadDoneSilence cfg (runChunks cfg v ls).1) := by
  induction ls with
  | nil => exact fun v hv => Or.inl ⟨rfl, hv⟩
  | cons c cs ih =>
    intro v hv
    have hc := hls c (by simp)
    have hcs : ∀ x ∈ cs, 0 ≤ x.1 ∧ 0 ≤ x.2 ∧ x.2 < cfg.silenceThreshold :=
      fun x hx => hls x (by simp [hx])
    have hsplit : (runChunks cfg v (c :: cs)).2 =
        (stepChunk cfg v c).2 ++ (runChunks cfg (stepChunk cfg v c).1 cs).2 := by
      rw [runChunks]
    have hsplit1 : (runChunks cfg v (c :: cs)).1 =
        (runChunks cfg (stepChunk cfg v c).1 cs).1 := by
      rw [runChunks]
    rcases hv with hva | hve
    · obtain ⟨hev, hnext⟩ := step_low_active cfg hTs hD v c hc.2.1 hc.2.2 hva
      rcases ih hcs _ hnext with ⟨he2, hcase⟩ | ⟨he2, hdone⟩
      · exact Or.inl ⟨by rw [hsplit, hev, he2]; rfl, by rw [hsplit1]; exact hcase⟩
      · exact Or.inr ⟨by rw [hsplit, hev, he2]; rfl, by rw [hsplit1]; exact hdone⟩
    · rcases step_low_ending cfg hTs hTp v c hc.1 hc.2.1 hc.2.2 hve with
        ⟨hev, hnext⟩ | ⟨hev, hdone⟩
      · rcases ih hcs _ (Or.inr hnext) with ⟨he2, hcase⟩ | ⟨he2, hdone2⟩
        · exact Or.inl ⟨by rw [hsplit, hev, he2]; rfl, by rw [hsplit1]; exact hcase⟩
        · exact Or.inr ⟨by rw [hsplit, hev, he2]; rfl, by rw [hsplit1]; exact hdone2⟩
      · have hrest := run_low_done cfg hTs hTp cs hcs _ hdone
        refine Or.inr ⟨by rw [hsplit, hev, hrest.1]; rfl, by rw [hsplit1]; exact hrest.2⟩

/-- Running an all-high trace in the post-start SPEECH_ACTIVE shape fires
nothing further. -/
theorem run_high_active (cfg : VADConfig) (hTs : 0 < cfg.silenceThreshold)
    (hTp : 2 * cfg.silenceThreshold ≤ cfg.speechThreshold)
    (hs : List TimedChunk) (hall : ∀ c ∈ hs, cfg.speechThreshold < c.2) :
    ∀ v, VadActiveAllHigh cfg v →
    (runChunks cfg v hs).2 = [] ∧ VadActiveAllHigh cfg (runChunks cfg v hs).1 := by
  induction hs with
  | nil => exact fun v hv => ⟨rfl, hv⟩
  | cons c cs ih =>
    intro v hv
    have hstep := step_high_active cfg hTs hTp v c (hall c (by simp)) hv
    have hrest := ih (fun x hx => hall x (by simp [hx])) _ hstep.2
    exact ⟨by rw [runChunks]; rw [hstep.1, hrest.1]; rfl, hrest.2⟩

/-- Running an all-high trace long enough to reach the configured count of
consecutive chunks, starting while counting in SILENCE, fires exactly one
speech-start and leaves the detector in the all-high SPEECH_ACTIVE shape. -/
theorem run_high_fire (cfg : VADConfig) (hTs : 0 < cfg.silenceThreshold)
    (hTp : 2 * cfg.silenceThreshold ≤ cfg.speechThreshold)
    (hs : List TimedChunk) (hall : ∀ c ∈ hs, cfg.speechThreshold < c.2) :
    ∀ v j, VadSilenceCounting cfg v j → j < cfg.speechStartFrames →
    cfg.speechStartFrames ≤ j + hs.length →
    (runChunks cfg v hs).2 = [VADEvent.speechStart] ∧
    VadActiveAllHigh cfg (runChunks cfg v hs).1 := by
  induction hs with
  | nil =>
    intro v j _ hjK hK
    simp at hK
    omega
  | cons c cs ih =>
    intro v j hv hjK hK
    have hsplit : (runChunks cfg v (c :: cs)).2 =
        (stepChunk cfg v c).2 ++ (runChunks cfg (stepChunk cfg v c).1 cs).2 := by
      rw [runChunks]
    have hsplit1 : (runChunks cfg v (c :: cs)).1 =
        (runChunks cfg (stepChunk cfg v c).1 cs).1 := by
      rw [runChunks]
    have hcs : ∀ x ∈ cs, cfg.speechThreshold < x.2 := fun x hx => hall x (by simp [hx])
    have hstep := step_high_silence cfg v c j (hall c (by simp)) hv
    by_cases hKj : cfg.speechStartFrames ≤ j + 1
    · obtain ⟨hev, hactive⟩ := hstep.1 hKj
      have hrest := run_high_active cfg hTs hTp cs hcs _ hactive
      exact ⟨by rw [hsplit, hev, hrest.1]; rfl, by rw [hsplit1]; exact hrest.2⟩
    · obtain ⟨hev, hcount⟩ := hstep.2 hKj
      have hrest := ih hcs _ (j + 1) hcount (by omega) (by simp at hK; omega)
      exact ⟨by rw [hsplit, hev, hrest.1]; rfl, by rw [hsplit1]; exact hrest.2⟩

/-- The all-high SPEECH_ACTIVE shape is a live phase-2 waiting shape. -/
theorem activeAllHigh_waiting (cfg : VADConfig) (hTs : 0 < cfg.silenceThreshold)
    (hTp : 2 * cfg.silenceThreshold ≤ cfg.speechThreshold)
    (v : VAD) (hv : VadActiveAllHigh cfg v) : VadActiveWaiting cfg v := by
  obtain ⟨hst, htm, hcnt, hne, hlen, hall⟩ := hv
  refine ⟨hst, htm, hcnt, hne, hlen, ?_, ?_⟩
  · intro x hx
    have := hall x hx
    linarith
  · have := smoothed_gt_of_all_gt _ hne hall
    linarith

/-- Elapsing past a pending timer deadline fires the speech-end event. -/
theorem vadElapse_fires (v : VAD) (r dt : ℚ) (htm : v.silenceTimer = some r)
    (hle : r ≤ dt) :
    vadElapse v dt = ({ v with state := .SILENCE, silenceTimer := none },
      [VADEvent.speechEnd]) := by
  simp only [vadElapse, htm]
  rw [if_pos hle]

/-- Elapsing with no pending timer changes nothing. -/
theorem vadElapse_noop (v : VAD) (dt : ℚ) (htm : v.silenceTimer = none) :
    vadElapse v dt = (v, []) := by
  simp only [vadElapse, htm]

/-- C6 (amended): from a fresh detector, a trace of at least
`speechStartFrames` consecutive chunks with energy above `speechThreshold`,
followed by at least 5 chunks with energy below `silenceThreshold` (enough
to flush the 5-chunk smoothing window) and trailing silence longer than
`silenceDurationMs`, fires exactly one `onSpeechStart` followed by exactly
one `onSpeechEnd` — for any chunk timings, given thresholds with
`2 * silenceThreshold ≤ speechThreshold` (the configured 200/800 satisfy
this).  The 5-chunk floor on the low phase is necessary: chunk-count-based
smoothing means a low phase of fewer, larger chunks can leave the window
reading above the silence threshold forever. -/
theorem vad_one_start_one_end (cfg : VADConfig)
    (hK : 1 ≤ cfg.speechStartFrames)
    (hTs : 0 < cfg.silenceThreshold)
    (hTp : 2 * cfg.silenceThreshold ≤ cfg.speechThreshold)
    (hD : 0 < cfg.silenceDurationMs)
    (highs lows : List TimedChunk) (finalDt : ℚ)
    (hm : cfg.speechStartFrames ≤ highs.length)
    (hhigh : ∀ c ∈ highs, 0 ≤ c.1 ∧ cfg.speechThreshold < c.2)
    (hn : 5 ≤ lows.length)
    (hlow : ∀ c ∈ lows, 0 ≤ c.1 ∧ 0 ≤ c.2 ∧ c.2 < cfg.silenceThreshold)
    (hfin : cfg.silenceDurationMs < finalDt) :
    (runVAD cfg initVAD (highs ++ lows) finalDt).2 =
      [VADEvent.speechStart, VADEvent.speechEnd] := by
  have hinit : VadSilenceCounting cfg initVAD 0 :=
    ⟨rfl, rfl, rfl, by simp [initVAD], by simp [initVAD]⟩
  have hp1 := run_high_fire cfg hTs hTp highs (fun c hc => (hhigh c hc).2) initVAD 0 hinit
    (by omega) (by omega)
  have hwait : VadActiveWaiting cfg (runChunks cfg initVAD highs).1 :=
    activeAllHigh_waiting cfg hTs hTp _ hp1.2
  have hp2 := run_low cfg hTs hTp hD lows hlow _ (Or.inl hwait)
  have happ := runChunks_append cfg initVAD highs lows
  have happ1 : (runChunks cfg initVAD (highs ++ lows)).1 =
      (runChunks cfg (runChunks cfg initVAD highs).1 lows).1 := by rw [happ]
  have happ2 : (runChunks cfg initVAD (highs ++ lows)).2 =
      (runChunks cfg initVAD highs).2 ++
        (runChunks cfg (runChunks cfg initVAD highs).1 lows).2 := by rw [happ]
  have hsplit : (runVAD cfg initVAD (highs ++ lows) finalDt).2 =
      (runChunks cfg initVAD (highs ++ lows)).2 ++
        (vadElapse (runChunks cfg initVAD (highs ++ lows)).1 finalDt).2 := rfl
  rcases hp2 with ⟨he2, hcase⟩ | ⟨he2, hdone⟩
  · have hend : VadEndingDebounce cfg (runChunks cfg (runChunks cfg initVAD highs).1 lows).1 := by
      rcases hcase with hact | hd
      · exfalso
        have hsuf := runChunks_hist_suffix cfg lows (runChunks cfg initVAD highs).1
        have hl := runChunks_hist_length cfg lows (runChunks cfg initVAD highs).1
          hwait.2.2.2.2.1
        have hlen5 : (runChunks cfg (runChunks cfg initVAD highs).1 lows).1.energyHistory.length
            = 5 := by
          rw [hl]
          omega
        have hsuf2 : List.IsSuffix
            (runChunks cfg (runChunks cfg initVAD highs).1 lows).1.energyHistory
            (lows.map (fun c => c.2)) := by
          apply suffix_of_append_of_length_le hsuf
          rw [hlen5, List.length_map]
          omega
        have hall : ∀ x ∈ (runChunks cfg (runChunks cfg initVAD highs).1 lows).1.energyHistory,
            x < cfg.silenceThreshold := by
          intro x hx
          have hmem := hsuf2.subset hx
          rw [List.mem_map] at hmem
          obtain ⟨cc, hcc, rfl⟩ := hmem
          exact (hlow cc hcc).2.2
        have hne : (runChunks cfg (runChunks cfg initVAD highs).1 lows).1.energyHistory ≠ [] := by
          intro hcon
          rw [hcon] at hlen5
          simp at hlen5
        have hlt := smoothed_lt_of_all_lt _ hne hall
        have hge := hact.2.2.2.2.2.2
        linarith
      · exact hd
    obtain ⟨_, ⟨r, htm2, _, hrD⟩, _, _, _, _⟩ := hend
    have hfire := vadElapse_fires _ r finalDt htm2 (by linarith)
    rw [hsplit, happ2, happ1, hp1.1, he2, hfire]
    rfl
  · have hnoop := vadElapse_noop (runChunks cfg (runChunks cfg initVAD highs).1 lows).1
      finalDt hdone.2.1
    rw [hsplit, happ2, happ1, hp1.1, he2, hnoop]
    rfl

/-- C6 counterexample: with the configured thresholds (speech 800, silence
200, debounce 800ms, 2 start frames), two high-energy chunks then a single
low-energy chunk carrying 900ms of silence, followed by a further 10
seconds with no audio, fire only `onSpeechStart` and never `onSpeechEnd`:
the 5-slot smoothing window still averages the two high chunks, so the
detector never leaves SPEECH_ACTIVE — refuting the claim for arbitrary
chunk sizes. -/
theorem vad_large_silent_chunk_no_end :
    (runVAD serverVADConfig initVAD [(0, 900), (20, 900), (900, 0)] 10000).2 =
      [VADEvent.speechStart] ∧
    [VADEvent.speechStart] ≠ [VADEvent.speechStart, VADEvent.speechEnd] := by
  have hpush1 : pushEnergy [] 900 = [900] := by
    simp [pushEnergy, energyHistorySize]
  have hsm1 : smoothedEnergy [900] = 900 := by
    norm_num [smoothedEnergy]
  have hpush2 : pushEnergy [900] 900 = [900, 900] := by
    simp [pushEnergy, energyHistorySize]
  have hsm2 : smoothedEnergy [900, 900] = 900 := by
    norm_num [smoothedEnergy]
  have hpush3 : pushEnergy [900, 900] 0 = [900, 900, 0] := by
    simp [pushEnergy, energyHistorySize]
  have hsm3 : smoothedEnergy [900, 900, 0] = 600 := by
    norm_num [smoothedEnergy]
  have hstep1 : stepChunk serverVADConfig ⟨.SILENCE, 0, [], none⟩ (0, 900) =
      (⟨.SILENCE, 1, [900], none⟩, []) := by
    rw [stepChunk, vadElapse_none]
    simp only [processAudio_inbound]
    rw [hpush1, hsm1]
    simp only [updateState_silence, serverVADConfig]
    rw [if_pos (by norm_num : (800 : ℚ) < 900), if_neg (by norm_num : ¬ (2 ≤ 0 + 1))]
    rfl
  have hstep2 : stepChunk serverVADConfig ⟨.SILENCE, 1, [900], none⟩ (20, 900) =
      (⟨.SPEECH_ACTIVE, 0, [900, 900], none⟩, [VADEvent.speechStart]) := by
    rw [stepChunk, vadElapse_none]
    simp only [processAudio_inbound]
    rw [hpush2, hsm2]
    simp only [updateState_silence, serverVADConfig]
    rw [if_pos (by norm_num : (800 : ℚ) < 900), if_pos (by norm_num : 2 ≤ 1 + 1)]
    rfl
  have hstep3 : stepChunk serverVADConfig ⟨.SPEECH_ACTIVE, 0, [900, 900], none⟩ (900, 0) =
      (⟨.SPEECH_ACTIVE, 0, [900, 900, 0], none⟩, []) := by
    rw [stepChunk, vadElapse_none]
    simp only [processAudio_inbound]
    rw [hpush3, hsm3]
    simp only [updateState_active, serverVADConfig]
    rw [if_neg (by norm_num : ¬ (600 : ℚ) < 200)]
    rfl
  have hrun : runChunks serverVADConfig initVAD [(0, 900), (20, 900), (900, 0)] =
      (⟨.SPEECH_ACTIVE, 0, [900, 900, 0], none⟩, [VADEvent.speechStart]) := by
    rw [show (initVAD : VAD) = ⟨.SILENCE, 0, [], none⟩ from rfl]
    rw [runChunks, hstep1]
    dsimp only
    rw [runChunks, hstep2]
    dsimp only
    rw [runChunks, hstep3]
    dsimp only
    rw [runChunks]
    rfl
  constructor
  · have hfin : (runVAD serverVADConfig initVAD [(0, 900), (20, 900), (900, 0)] 10000).2 =
        (runChunks serverVADConfig initVAD [(0, 900), (20, 900), (900, 0)]).2 ++
          (vadElapse (runChunks serverVADConfig initVAD
            [(0, 900), (20, 900), (900, 0)]).1 10000).2 := rfl
    rw [hfin, hrun]
    dsimp only
    rw [vadElapse_none]
    rfl
  · decide

/-- Witness for C6: the configured thresholds with two high chunks and five
low chunks satisfy every hypothesis, and the run fires exactly one start
then one end. -/
theorem vad_one_start_one_end_witness :
    (1 ≤ serverVADConfig.speechStartFrames) ∧ (0 < serverVADConfig.silenceThreshold) ∧
    (2 * serverVADConfig.silenceThreshold ≤ serverVADConfig.speechThreshold) ∧
    (0 < serverVADConfig.silenceDurationMs) ∧
    (serverVADConfig.speechStartFrames ≤
      ([(0, 900), (20, 900)] : List TimedChunk).length) ∧
    (∀ c ∈ ([(0, 900), (20, 900)] : List TimedChunk),
      0 ≤ c.1 ∧ serverVADConfig.speechThreshold < c.2) ∧
    (5 ≤ ([(20, 0), (20, 0), (20, 0), (20, 0), (20, 0)] : List TimedChunk).length) ∧
    (∀ c ∈ ([(20, 0), (20, 0), (20, 0), (20, 0), (20, 0)] : List TimedChunk),
      0 ≤ c.1 ∧ 0 ≤ c.2 ∧ c.2 < serverVADConfig.silenceThreshold) ∧
    (serverVADConfig.silenceDurationMs < 900) ∧
    (runVAD serverVADConfig initVAD
      ([(0, 900), (20, 900)] ++ [(20, 0), (20, 0), (20, 0), (20, 0), (20, 0)]) 900).2 =
      [VADEvent.speechStart, VADEvent.speechEnd] := by
  refine ⟨by norm_num [serverVADConfig], by norm_num [serverVADConfig],
    by norm_num [serverVADConfig], by norm_num [serverVADConfig],
    by norm_num [serverVADConfig],
    (fun c hc => by fin_cases hc <;> norm_num [serverVADConfig]),
    by norm_num,
    (fun c hc => by fin_cases hc <;> norm_num [serverVADConfig]),
    by norm_num [serverVADConfig], ?_⟩
  exact vad_one_start_one_end serverVADConfig
    (by norm_num [serverVADConfig]) (by norm_num [serverVADConfig])
    (by norm_num [serverVADConfig]) (by norm_num [serverVADConfig])
    _ _ _ (by norm_num [serverVADConfig])
    (fun c hc => by fin_cases hc <;> norm_num [serverVADConfig])
    (by norm_num)
    (fun c hc => by fin_cases hc <;> norm_num [serverVADConfig])
    (by norm_num [serverVADConfig])

end Clarity
